import Mathlib

/-!
Verification of the MIME registry / content-negotiation core of the
`thinkgos/encoding` Go package (file `encoding.go`).

The registry (`Encoding`), its mutation operations (`Register`, `Delete`),
lookup (`Get`), header negotiation (`parseAcceptHeader`,
`marshalerFromHeaderContentType`, `marshalerFromHeaderAccept`) and the
`Bind`/`Render` facade are translated directly from the Go source.
External collaborators (the pluggable codec implementations, the standard
library's `mime.ParseMediaType`, `http.Request.ParseMultipartForm` and the
`http.ResponseWriter`) are modelled abstractly: codecs as records of their
capability surface, the stdlib pieces either as a faithful translation
(`goParseMediaType`) or as function parameters.
-/

set_option autoImplicit false
set_option linter.dupNamespace false

namespace Encoding

/-- `defaultMemory = 32 << 20` (encoding.go line 16): the in-memory bound
handed to `req.ParseMultipartForm`. -/
def defaultMemory : Nat := 32 <<< 20

/-- `Mime_Query = "__MIME__/QUERY"` (encoding.go line 21). -/
def Mime_Query : String := "__MIME__/QUERY"

/-- `Mime_Uri = "__MIME__/URI"` (encoding.go line 23). -/
def Mime_Uri : String := "__MIME__/URI"

/-- `Mime_Wildcard = "*"` (encoding.go line 26). -/
def Mime_Wildcard : String := "*"

/-- `Mime_JSON = "application/json"` (encoding.go line 28). -/
def Mime_JSON : String := "application/json"

/-- `Mime_Plain = "text/plain"` (encoding.go line 32). -/
def Mime_Plain : String := "text/plain"

/-- `Mime_PostForm = "application/x-www-form-urlencoded"` (encoding.go line 33). -/
def Mime_PostForm : String := "application/x-www-form-urlencoded"

/-- `Mime_MultipartPostForm = "multipart/form-data"` (encoding.go line 34). -/
def Mime_MultipartPostForm : String := "multipart/form-data"

/-- Multi-valued field maps: Go's `url.Values` / `multipart.Form.Value`,
both `map[string][]string`, presented as association lists. -/
def Vals : Type := List (String × List String)

/-- Modelled from the spec: a pluggable codec (`codec.Marshaler` plus the
optional narrower capabilities), whose interfaces live in the external
`codec` package. Only the capability surface used by the negotiation core
is modelled: the three capability-membership flags stand for the Go
dynamic type assertions `marshaler.(codec.FormMarshaler)`,
`marshaler.(codec.UriMarshaler)` and `marshaler.(codec.FormCodec)`, and
the behaviour fields stand for `Marshal`, `ContentType`,
`NewDecoder(body).Decode` and the form-field `Decode` entry points. The
payload type `V` abstracts Go's `any`. Behaviour of concrete codecs is a
black box; theorems never rely on it. -/
structure Marshaler (V : Type) where
  isFormMarshaler : Bool
  isUriMarshaler : Bool
  isFormCodec : Bool
  marshal : V → Except String (List Nat)
  contentType : V → String
  decode : List Nat → V → Except String V
  formDecode : Vals → V → Except String V
  formCodecDecode : Vals → V → Except String V

/-- Association-list model of the Go map `map[string]codec.Marshaler`:
lookup of a key (`m[k]` with `ok`), first match wins. -/
def mapLookup {V : Type} : List (String × Marshaler V) → String → Option (Marshaler V)
  | [], _ => none
  | p :: rest, key => if p.1 = key then some p.2 else mapLookup rest key

/-- Association-list model of Go map assignment `m[k] = v`: replaces the
entry if the key is present, otherwise appends it. -/
def mapInsert {V : Type} : List (String × Marshaler V) → String → Marshaler V → List (String × Marshaler V)
  | [], key, m => [(key, m)]
  | p :: rest, key, m => if p.1 = key then (key, m) :: rest else p :: mapInsert rest key m

/-- Association-list model of Go's built-in `delete(m, k)`: every entry
with the given key is removed. -/
def mapErase {V : Type} : List (String × Marshaler V) → String → List (String × Marshaler V)
  | [], _ => []
  | p :: rest, key => if p.1 = key then mapErase rest key else p :: mapErase rest key

/-- The registry `Encoding` (encoding.go lines 48-53): a general mapping
plus the three reserved slots. The slot fields are Go interface values,
hence nilable: `none` models a nil `codec.Marshaler` interface. The
static Go types of `mimeQuery`/`mimeUri` (`codec.FormMarshaler` /
`codec.UriMarshaler`) are enforced dynamically through the capability
flags at registration. -/
structure Encoding (V : Type) where
  mimeMap : List (String × Marshaler V)
  mimeQuery : Option (Marshaler V)
  mimeUri : Option (Marshaler V)
  mimeWildcard : Option (Marshaler V)

/-- Helper to build a codec value with the given capability flags and a
constant declared content type; behaviour fields are inert placeholders
(concrete codec behaviour is external to the negotiation core). -/
def mkMarshaler (V : Type) (form uri fc : Bool) (ct : String) : Marshaler V :=
  { isFormMarshaler := form
  , isUriMarshaler := uri
  , isFormCodec := fc
  , marshal := fun _ => Except.ok []
  , contentType := fun _ => ct
  , decode := fun _ v => Except.ok v
  , formDecode := fun _ v => Except.ok v
  , formCodecDecode := fun _ v => Except.ok v }

/-- Modelled from the spec: `form.New("json")`, the URL-encoded form codec
from the external `form` package; implements the form capability
(FormMarshaler). -/
def formJsonCodec (V : Type) : Marshaler V :=
  mkMarshaler V true false false Mime_PostForm

/-- Modelled from the spec: `form.MultipartCodec` wrapping the form codec;
implements the multipart capability (FormCodec). -/
def multipartFormCodec (V : Type) : Marshaler V :=
  mkMarshaler V false false true Mime_MultipartPostForm

/-- Modelled from the spec: `json.Codec{UseNumber: true,
DisallowUnknownFields: false}` from the external `json` package; base
capability only. -/
def jsonLenientCodec (V : Type) : Marshaler V :=
  mkMarshaler V false false false Mime_JSON

/-- Modelled from the spec: `json.Codec{UseNumber: true,
DisallowUnknownFields: true}`, the default wildcard codec; base
capability only. -/
def jsonStrictCodec (V : Type) : Marshaler V :=
  mkMarshaler V false false false Mime_JSON

/-- Modelled from the spec: `form.QueryCodec` (static Go type
`codec.FormMarshaler`), the default query-slot codec. -/
def queryFormCodec (V : Type) : Marshaler V :=
  mkMarshaler V true false false Mime_PostForm

/-- Modelled from the spec: `form.UriCodec` (static Go type
`codec.UriMarshaler`, which extends the form capability), the default
URI-slot codec. -/
def uriFormCodec (V : Type) : Marshaler V :=
  mkMarshaler V true true false Mime_PostForm

/-- `New()` (encoding.go lines 74-85): the registry with its default
marshalers. -/
def New (V : Type) : Encoding V :=
  { mimeMap :=
      [ (Mime_PostForm, formJsonCodec V)
      , (Mime_MultipartPostForm, multipartFormCodec V)
      , (Mime_JSON, jsonLenientCodec V) ]
  , mimeQuery := some (queryFormCodec V)
  , mimeUri := some (uriFormCodec V)
  , mimeWildcard := some (jsonStrictCodec V) }

/-- `Register` (encoding.go lines 90-116). Go mutates the receiver and
returns an `error`; here the pair `(error, post-state)` is returned, the
post-state being the unchanged registry on every error path. The
`len(mime) == 0` guard is rendered as equality with the empty string. -/
def Register {V : Type} (r : Encoding V) (mime : String) (marshaler : Option (Marshaler V)) :
    Option String × Encoding V :=
  if mime = "" then
    (some "encoding: empty MIME type", r)
  else
    match marshaler with
    | none => (some "encoding: marshaller should be not nil", r)
    | some m =>
      if mime = Mime_Query then
        if m.isFormMarshaler then (none, { r with mimeQuery := some m })
        else (some "encoding: marshaller should be implement codec.FormMarshaler", r)
      else if mime = Mime_Uri then
        if m.isUriMarshaler then (none, { r with mimeUri := some m })
        else (some "encoding: marshaller should be implement codec.UriMarshaler", r)
      else if mime = Mime_Wildcard then
        (none, { r with mimeWildcard := some m })
      else
        (none, { r with mimeMap := mapInsert r.mimeMap mime m })

/-- `Get` (encoding.go lines 121-136): reserved tokens read their slot;
any other token reads the general mapping, falling back to the wildcard
slot when the lookup misses (`if m == nil`). -/
def Get {V : Type} (r : Encoding V) (mime : String) : Option (Marshaler V) :=
  if mime = Mime_Query then r.mimeQuery
  else if mime = Mime_Uri then r.mimeUri
  else if mime = Mime_Wildcard then r.mimeWildcard
  else
    match mapLookup r.mimeMap mime with
    | some m => some m
    | none => r.mimeWildcard

/-- `Delete` (encoding.go lines 140-148): the three reserved tokens are
protected; any other token is removed from the general mapping. -/
def Delete {V : Type} (r : Encoding V) (mime : String) : Option String × Encoding V :=
  if mime = Mime_Wildcard ∨ mime = Mime_Query ∨ mime = Mime_Uri then
    (some ("encoding: MIME(" ++ mime ++ ") can not delete, but you can override it"), r)
  else
    (none, { r with mimeMap := mapErase r.mimeMap mime })

/-- Go `strings.Split(s, sep)` for a single-character separator (the only
form this package uses: `","` and `";"`): split at every occurrence,
preserving empty pieces, with `Split("", sep) = [""]`. -/
def splitList (sep : Char) : List Char → List (List Char)
  | [] => [[]]
  | c :: rest =>
    if c = sep then [] :: splitList sep rest
    else
      match splitList sep rest with
      | [] => [[c]]
      | h :: t => (c :: h) :: t

/-- Whitespace as trimmed by Go `strings.TrimSpace` (restricted to the
ASCII cases the claims exercise). -/
def isSpaceChar (c : Char) : Bool :=
  c = ' ' || c = '\t' || c = '\n' || c = '\r'

/-- Go `strings.TrimSpace`: drop whitespace from both ends. -/
def trimList (s : List Char) : List Char :=
  ((s.dropWhile isSpaceChar).reverse.dropWhile isSpaceChar).reverse

/-- `parseAcceptHeader` (encoding.go lines 231-238): split one raw header
value on commas and trim whitespace from each piece, preserving order. -/
def parseAcceptHeader (header : String) : List String :=
  (splitList ',' header.toList).map (fun l => String.mk (trimList l))

/-- Go's `strings.ToLower` on one character, restricted to ASCII (the
only case the claims exercise). -/
def lowerChar (c : Char) : Char :=
  if 65 ≤ c.toNat ∧ c.toNat ≤ 90 then Char.ofNat (c.toNat + 32) else c

/-- tspecials of RFC 1521 as used by Go's `mime` package. -/
def tspecials : List Char := "()<>@,;:\\\"/[]?=".toList

/-- Go `mime.isTokenChar`: printable US-ASCII other than space and
tspecials. -/
def isTokenChar (c : Char) : Bool :=
  decide (32 < c.toNat) && decide (c.toNat < 127) && !(tspecials.contains c)

/-- Go `mime.consumeToken`: longest prefix of token characters, and the
rest. -/
def consumeToken (s : List Char) : List Char × List Char :=
  (s.takeWhile isTokenChar, s.dropWhile isTokenChar)

/-- Go `mime.checkMediaTypeDisposition`: a bare token, or token "/" token
with nothing trailing. -/
def checkMediaTypeDisposition (s : List Char) : Bool :=
  let tr := consumeToken s
  if tr.1.isEmpty then false
  else
    match tr.2 with
    | [] => true
    | c :: rest =>
      if c = '/' then
        let tr2 := consumeToken rest
        !tr2.1.isEmpty && tr2.2.isEmpty
      else false

/-- Modelled from the Go standard library `mime.ParseMediaType` (an
external collaborator of this package): the portion before the first
`;` is trimmed of surrounding whitespace and lowercased, and must be a
valid media type (`token` or `token/token`); `none` models the error
return. Validation of the parameter section after `;` is not modelled:
the claims under verification exercise only well-formed parameters. -/
def goParseMediaType (v : String) : Option String :=
  let base := (splitList ';' v.toList).headD []
  let mediatype := (trimList base).map lowerChar
  if checkMediaTypeDisposition mediatype then some (String.mk mediatype) else none

/-- `marshalerFromHeaderContentType` (encoding.go lines 273-293): scan the
raw `Content-Type` header values in order; parse failures are skipped;
the first parsed bare media type with an entry in the general mapping is
returned with its codec; otherwise the wildcard token and slot. The Go
loop's writes to `contentType` on non-matching iterations are dead: the
variable is overwritten with `Mime_Wildcard` whenever no match is found. -/
def marshalerFromHeaderContentType {V : Type} (r : Encoding V) :
    List String → String × Option (Marshaler V)
  | [] => (Mime_Wildcard, r.mimeWildcard)
  | v :: rest =>
    match goParseMediaType v with
    | none => marshalerFromHeaderContentType r rest
    | some contentType =>
      match mapLookup r.mimeMap contentType with
      | some m => (contentType, some m)
      | none => marshalerFromHeaderContentType r rest

/-- Inner loop of `marshalerFromHeaderAccept` (encoding.go lines 306-311):
walk the comma-split candidates of one raw header value; on the first
map hit, overwrite the accumulator and `break`; otherwise leave the
accumulator as it was. -/
def acceptInnerLoop {V : Type} (map : List (String × Marshaler V)) (acc : Option (Marshaler V)) :
    List String → Option (Marshaler V)
  | [] => acc
  | v :: rest =>
    match mapLookup map v with
    | some m => some m
    | none => acceptInnerLoop map acc rest

/-- Outer loop of `marshalerFromHeaderAccept` (encoding.go lines 304-312).
Note that the `break` in the Go source terminates only the inner loop:
the outer loop continues through every raw header value, so a match in a
later header value overwrites a match found in an earlier one. -/
def acceptOuterLoop {V : Type} (map : List (String × Marshaler V)) (acc : Option (Marshaler V)) :
    List String → Option (Marshaler V)
  | [] => acc
  | v :: rest => acceptOuterLoop map (acceptInnerLoop map acc (parseAcceptHeader v)) rest

/-- `marshalerFromHeaderAccept` (encoding.go lines 301-317): run the two
loops with a nil accumulator, then fall back to the wildcard slot. -/
def marshalerFromHeaderAccept {V : Type} (r : Encoding V) (values : List String) :
    Option (Marshaler V) :=
  match acceptOuterLoop r.mimeMap none values with
  | some m => some m
  | none => r.mimeWildcard

/-- The parts of `http.Request` this package reads: the method, the two
header value lists (under their canonical keys, as the package reads
them via `http.CanonicalHeaderKey`), the parsed URL query parameters
(`req.URL.Query()`), and the body bytes. -/
structure Request where
  method : String
  contentTypeValues : List String
  acceptValues : List String
  queryValues : Vals
  body : List Nat

/-- Go `http.MethodGet`. -/
def http_MethodGet : String := "GET"

/-- `InboundForRequest` (encoding.go lines 156-158). -/
def InboundForRequest {V : Type} (r : Encoding V) (req : Request) :
    String × Option (Marshaler V) :=
  marshalerFromHeaderContentType r req.contentTypeValues

/-- `OutboundForRequest` (encoding.go lines 166-168). -/
def OutboundForRequest {V : Type} (r : Encoding V) (req : Request) : Option (Marshaler V) :=
  marshalerFromHeaderAccept r req.acceptValues

/-- `BindQuery` (encoding.go lines 198-200): decode the URL query values
through the query slot. A nil query slot would make the Go code panic on
the method call; that is the `none` result. -/
def BindQuery {V : Type} (r : Encoding V) (req : Request) (v : V) : Option (Except String V) :=
  r.mimeQuery.map (fun q => q.formDecode req.queryValues v)

/-- `Bind` (encoding.go lines 178-195). The standard library call
`req.ParseMultipartForm(defaultMemory)` (followed by reading
`req.MultipartForm.Value`) is an external collaborator and is abstracted
as the function parameter `parseMultipartForm`, applied to the same
in-memory bound and request. In the multipart branch a nil resolved
marshaler makes the Go type assertion fail, producing the unsupported-
marshaller error; in the streaming branch a nil marshaler would panic on
`NewDecoder` (the `none` result). -/
def Bind {V : Type} (parseMultipartForm : Nat → Request → Except String Vals)
    (r : Encoding V) (req : Request) (v : V) : Option (Except String V) :=
  if req.method = http_MethodGet then
    BindQuery r req v
  else
    let tm := InboundForRequest r req
    if tm.1 = Mime_MultipartPostForm then
      match tm.2 with
      | none => some (Except.error ("encoding: not supported marshaller(" ++ tm.1 ++ ")"))
      | some marshaller =>
        if marshaller.isFormCodec then
          match parseMultipartForm defaultMemory req with
          | Except.error e => some (Except.error e)
          | Except.ok fields => some (marshaller.formCodecDecode fields v)
        else
          some (Except.error ("encoding: not supported marshaller(" ++ tm.1 ++ ")"))
    else
      match tm.2 with
      | none => none
      | some marshaller => some (marshaller.decode req.body v)

/-- The parts of `http.ResponseWriter` state this package touches: the
response header map (single-valued, as `Header().Set` leaves it) and the
body bytes written so far. -/
structure ResponseWriter where
  headers : List (String × String)
  body : List Nat

/-- `Header().Set(k, v)`: replace every entry under the key with the
single given value. -/
def headerSet (hs : List (String × String)) (k v : String) : List (String × String) :=
  (k, v) :: hs.filter (fun p => p.1 != k)

/-- `Render` (encoding.go lines 217-229). The response writer's `Write`
is an external collaborator and is abstracted as the function parameter
`writeTo`, returning the written-to writer and an optional write error;
Go returns the write error verbatim. A nil resolved marshaler would
panic on the `Marshal` call (the `none` result). -/
def Render {V : Type} (writeTo : ResponseWriter → List Nat → ResponseWriter × Option String)
    (r : Encoding V) (w : ResponseWriter) (req : Request) (v : Option V) :
    Option (ResponseWriter × Option String) :=
  match v with
  | none => some (w, none)
  | some val =>
    match OutboundForRequest r req with
    | none => none
    | some marshaller =>
      match marshaller.marshal val with
      | Except.error e => some (w, some e)
      | Except.ok data =>
        some (writeTo { w with headers := headerSet w.headers "Content-Type" (marshaller.contentType val) } data)

/-- The registry states reachable from `New` by any sequence of
`Register` and `Delete` calls (successful or failing). -/
inductive Reachable {V : Type} : Encoding V → Prop where
  | new : Reachable (New V)
  | register (r : Encoding V) (mime : String) (m : Option (Marshaler V)) :
      Reachable r → Reachable (Register r mime m).2
  | delete (r : Encoding V) (mime : String) :
      Reachable r → Reachable (Delete r mime).2

/-- Content-Type resolution as the spec words it: walk the header values
in order, and the first one whose parsed bare media type has an exact
entry in the general mapping wins, parse failures being skipped; if none
matches, report the wildcard token with the wildcard codec. -/
def specInboundResolution {V : Type} (r : Encoding V) (values : List String) :
    String × Option (Marshaler V) :=
  match values.findSome? (fun v => (goParseMediaType v).bind
      (fun t => (mapLookup r.mimeMap t).map (fun m => (t, m)))) with
  | some tm => (tm.1, some tm.2)
  | none => (Mime_Wildcard, r.mimeWildcard)

/-- Looking a key up after inserting it yields the inserted value. -/
theorem mapLookup_mapInsert_self {V : Type} (l : List (String × Marshaler V)) (k : String)
    (m : Marshaler V) : mapLookup (mapInsert l k m) k = some m := by
  induction l with
  | nil => simp [mapInsert, mapLookup]
  | cons p rest ih =>
    by_cases h : p.1 = k
    · simp [mapInsert, h, mapLookup]
    · simp [mapInsert, h, mapLookup, ih]

/-- Erasing a key removes every entry under it. -/
theorem mapLookup_mapErase_self {V : Type} (l : List (String × Marshaler V)) (k : String) :
    mapLookup (mapErase l k) k = none := by
  induction l with
  | nil => rfl
  | cons p rest ih =>
    by_cases h : p.1 = k
    · simpa [mapErase, h] using ih
    · simpa [mapErase, h, mapLookup] using ih

/-- Erasing one key leaves lookups of any other key unchanged. -/
theorem mapLookup_mapErase_ne {V : Type} (l : List (String × Marshaler V)) (k k' : String)
    (h : k' ≠ k) : mapLookup (mapErase l k) k' = mapLookup l k' := by
  induction l with
  | nil => rfl
  | cons p rest ih =>
    by_cases hp : p.1 = k
    · have hkk : ¬ (k = k') := fun hc => h hc.symm
      simpa [mapErase, hp, mapLookup, hkk] using ih
    · simp [mapErase, hp, mapLookup, ih]

/-- Erasing an absent key is the identity. -/
theorem mapErase_of_lookup_none {V : Type} (l : List (String × Marshaler V)) (k : String)
    (h : mapLookup l k = none) : mapErase l k = l := by
  induction l with
  | nil => rfl
  | cons p rest ih =>
    by_cases hp : p.1 = k
    · simp [mapLookup, hp] at h
    · simp [mapLookup, hp] at h
      simp [mapErase, hp, ih h]

/-- Claim C2: for every registry, non-empty token `T` and non-nil codec
`C`, `Register T C` followed by `Get T` returns exactly `C`; except when
`T` is the query (resp. URI) reserved token and `C` lacks the
FormMarshaler (resp. UriMarshaler) capability, in which case `Register`
returns an error and `Get T` returns the same codec as before the call. -/
theorem register_get_roundtrip {V : Type} (r : Encoding V) (T : String) (C : Marshaler V)
    (hT : T ≠ "") :
    (((T = Mime_Query ∧ C.isFormMarshaler = false) ∨
      (T = Mime_Uri ∧ C.isUriMarshaler = false)) →
      (Register r T (some C)).1.isSome = true ∧
      Get (Register r T (some C)).2 T = Get r T) ∧
    ((¬ ((T = Mime_Query ∧ C.isFormMarshaler = false) ∨
      (T = Mime_Uri ∧ C.isUriMarshaler = false))) →
      (Register r T (some C)).1 = none ∧
      Get (Register r T (some C)).2 T = some C) := by
  by_cases hq : T = Mime_Query
  · subst hq
    cases hC : C.isFormMarshaler with
    | false =>
      refine ⟨fun _ => ⟨?_, ?_⟩, fun h => absurd (Or.inl ⟨rfl, rfl⟩) h⟩
      · simp [Register, Mime_Query, hC]
      · simp [Register, Mime_Query, hC]
    | true =>
      refine ⟨fun h => ?_, fun _ => ⟨?_, ?_⟩⟩
      · rcases h with ⟨_, h2⟩ | ⟨h1, _⟩
        · exact absurd h2 (by decide)
        · exact absurd h1 (by decide)
      · simp [Register, Mime_Query, hC]
      · simp [Register, Get, Mime_Query, hC]
  · by_cases hu : T = Mime_Uri
    · subst hu
      cases hC : C.isUriMarshaler with
      | false =>
        refine ⟨fun _ => ⟨?_, ?_⟩, fun h => absurd (Or.inr ⟨rfl, rfl⟩) h⟩
        · simp [Register, Mime_Query, Mime_Uri, hC]
        · simp [Register, Mime_Query, Mime_Uri, hC]
      | true =>
        refine ⟨fun h => ?_, fun _ => ⟨?_, ?_⟩⟩
        · rcases h with ⟨h1, _⟩ | ⟨_, h2⟩
          · exact absurd h1 (by decide)
          · exact absurd h2 (by decide)
        · simp [Register, Mime_Query, Mime_Uri, hC]
        · simp [Register, Get, Mime_Query, Mime_Uri, hC]
    · refine ⟨fun h => ?_, fun _ => ⟨?_, ?_⟩⟩
      · rcases h with ⟨h1, _⟩ | ⟨h1, _⟩
        · exact absurd h1 hq
        · exact absurd h1 hu
      · by_cases hw : T = Mime_Wildcard
        · subst hw; simp [Register, Mime_Query, Mime_Uri, Mime_Wildcard]
        · simp [Register, hT, hq, hu, hw]
      · by_cases hw : T = Mime_Wildcard
        · subst hw; simp [Register, Get, Mime_Query, Mime_Uri, Mime_Wildcard]
        · simp [Register, Get, hT, hq, hu, hw, mapLookup_mapInsert_self]

/-- Witness for C2: registering a fresh codec under `application/xml` in
the default registry and reading it back. -/
theorem register_get_roundtrip_witness :
    ("application/xml" : String) ≠ "" ∧
    Get (Register (New Unit) "application/xml"
        (some (mkMarshaler Unit false false false "x"))).2 "application/xml"
      = some (mkMarshaler Unit false false false "x") := by
  have h := register_get_roundtrip (New Unit) "application/xml"
    (mkMarshaler Unit false false false "x") (by decide)
  exact ⟨by decide, (h.2 (by decide)).2⟩

/-- Claim C10: every failing `Register` call (empty token, nil codec, or
a capability mismatch on the query/URI reserved token) leaves the entire
registry state, all four components included, unchanged. -/
theorem register_failure_state_unchanged {V : Type} (r : Encoding V) (t : String)
    (c : Option (Marshaler V)) (h : (Register r t c).1.isSome = true) :
    (Register r t c).2 = r := by
  by_cases h1 : t = ""
  · simp [Register, h1]
  · cases c with
    | none => simp [Register, h1]
    | some m =>
      by_cases h2 : t = Mime_Query
      · subst h2
        cases hm : m.isFormMarshaler with
        | false => simp [Register, Mime_Query, hm]
        | true => simp [Register, Mime_Query, hm] at h
      · by_cases h3 : t = Mime_Uri
        · subst h3
          cases hm : m.isUriMarshaler with
          | false => simp [Register, Mime_Query, Mime_Uri, hm]
          | true => simp [Register, Mime_Query, Mime_Uri, hm] at h
        · by_cases h4 : t = Mime_Wildcard
          · subst h4
            simp [Register, Mime_Query, Mime_Uri, Mime_Wildcard] at h
          · simp [Register, h1, h2, h3, h4] at h

/-- Witness for C10: the three failure modes (empty token, nil codec,
capability mismatch on the query token) all leave the default registry
unchanged. -/
theorem register_failure_state_unchanged_witness :
    ((Register (New Unit) "" (some (jsonLenientCodec Unit))).1.isSome = true ∧
      (Register (New Unit) "" (some (jsonLenientCodec Unit))).2 = New Unit) ∧
    ((Register (New Unit) "application/json" none).1.isSome = true ∧
      (Register (New Unit) "application/json" none).2 = New Unit) ∧
    ((Register (New Unit) Mime_Query (some (jsonLenientCodec Unit))).1.isSome = true ∧
      (Register (New Unit) Mime_Query (some (jsonLenientCodec Unit))).2 = New Unit) :=
  ⟨⟨rfl, register_failure_state_unchanged (New Unit) "" (some (jsonLenientCodec Unit)) rfl⟩,
   ⟨rfl, register_failure_state_unchanged (New Unit) "application/json" none rfl⟩,
   ⟨rfl, register_failure_state_unchanged (New Unit) Mime_Query (some (jsonLenientCodec Unit)) rfl⟩⟩

/-- Claim C4: `Delete` on any of the three reserved tokens errors and
leaves the registry unchanged; on any other token it succeeds, removes
the general-mapping entry (leaving the reserved slots and every other
key untouched), and deleting an absent token is a no-op success. -/
theorem delete_reserved_protected {V : Type} (r : Encoding V) (t k : String) (hk : k ≠ t) :
    ((t = Mime_Wildcard ∨ t = Mime_Query ∨ t = Mime_Uri) →
      (Delete r t).1.isSome = true ∧ (Delete r t).2 = r) ∧
    ((¬ (t = Mime_Wildcard ∨ t = Mime_Query ∨ t = Mime_Uri)) →
      (Delete r t).1 = none ∧
      (Delete r t).2.mimeQuery = r.mimeQuery ∧
      (Delete r t).2.mimeUri = r.mimeUri ∧
      (Delete r t).2.mimeWildcard = r.mimeWildcard ∧
      mapLookup (Delete r t).2.mimeMap t = none ∧
      mapLookup (Delete r t).2.mimeMap k = mapLookup r.mimeMap k ∧
      (mapLookup r.mimeMap t = none → (Delete r t).2 = r)) := by
  constructor
  · intro h
    simp [Delete, h]
  · intro h
    refine ⟨?_, ?_, ?_, ?_, ?_, ?_, fun habs => ?_⟩
    · simp [Delete, h]
    · simp [Delete, h]
    · simp [Delete, h]
    · simp [Delete, h]
    · simp [Delete, h, mapLookup_mapErase_self]
    · simp [Delete, h, mapLookup_mapErase_ne r.mimeMap t k hk]
    · simp [Delete, h, mapErase_of_lookup_none r.mimeMap t habs]

/-- Witness for C4: deleting the wildcard token from the default registry
fails and changes nothing; deleting `application/json` succeeds and
removes exactly that entry; deleting the absent `application/xml` is a
no-op success. -/
theorem delete_reserved_protected_witness :
    ((Delete (New Unit) Mime_Wildcard).1.isSome = true ∧
      (Delete (New Unit) Mime_Wildcard).2 = New Unit) ∧
    ((Delete (New Unit) "application/json").1 = none ∧
      mapLookup (Delete (New Unit) "application/json").2.mimeMap "application/json" = none ∧
      mapLookup (Delete (New Unit) "application/json").2.mimeMap Mime_PostForm
        = mapLookup (New Unit).mimeMap Mime_PostForm) ∧
    (Delete (New Unit) "application/xml").2 = New Unit := by
  have h1 := delete_reserved_protected (New Unit) Mime_Wildcard "z" (by decide)
  have h2 := delete_reserved_protected (New Unit) "application/json" Mime_PostForm (by decide)
  have h3 := delete_reserved_protected (New Unit) "application/xml" "z" (by decide)
  have h2rest := h2.2 (by decide)
  exact ⟨h1.1 (by decide), ⟨h2rest.1, h2rest.2.2.2.2.1, h2rest.2.2.2.2.2.1⟩,
    (h3.2 (by decide)).2.2.2.2.2.2 rfl⟩

/-- Claim C5: in the registry built by `New` and after every sequence of
`Register` and `Delete` calls, the three reserved slots are non-nil, and
consequently `Get` returns a non-nil codec for every input token. -/
theorem reserved_slots_invariant {V : Type} (r : Encoding V) (h : Reachable r) (t : String) :
    (r.mimeQuery.isSome = true ∧ r.mimeUri.isSome = true ∧ r.mimeWildcard.isSome = true) ∧
    (Get r t).isSome = true := by
  have slots : r.mimeQuery.isSome = true ∧ r.mimeUri.isSome = true ∧
      r.mimeWildcard.isSome = true := by
    induction h with
    | new => exact ⟨rfl, rfl, rfl⟩
    | register r0 mime m _ ih =>
      by_cases h1 : mime = ""
      · simpa [Register, h1] using ih
      · cases m with
        | none => simpa [Register, h1] using ih
        | some mm =>
          by_cases h2 : mime = Mime_Query
          · subst h2
            cases hm : mm.isFormMarshaler with
            | false => simpa [Register, Mime_Query, hm] using ih
            | true =>
              simp [Register, Mime_Query, hm]
              exact ⟨ih.2.1, ih.2.2⟩
          · by_cases h3 : mime = Mime_Uri
            · subst h3
              cases hm : mm.isUriMarshaler with
              | false => simpa [Register, Mime_Query, Mime_Uri, hm] using ih
              | true =>
                simp [Register, Mime_Query, Mime_Uri, hm]
                exact ⟨ih.1, ih.2.2⟩
            · by_cases h4 : mime = Mime_Wildcard
              · subst h4
                simp [Register, Mime_Query, Mime_Uri, Mime_Wildcard]
                exact ⟨ih.1, ih.2.1⟩
              · simpa [Register, h1, h2, h3, h4] using ih
    | delete r0 mime _ ih =>
      by_cases h1 : mime = Mime_Wildcard ∨ mime = Mime_Query ∨ mime = Mime_Uri
      · simpa [Delete, h1] using ih
      · simpa [Delete, h1] using ih
  refine ⟨slots, ?_⟩
  by_cases h1 : t = Mime_Query
  · simpa [Get, h1] using slots.1
  · by_cases h2 : t = Mime_Uri
    · simpa [Get, h1, h2] using slots.2.1
    · by_cases h3 : t = Mime_Wildcard
      · simpa [Get, h1, h2, h3] using slots.2.2
      · cases hl : mapLookup r.mimeMap t with
        | some m => simp [Get, h1, h2, h3, hl]
        | none => simpa [Get, h1, h2, h3, hl] using slots.2.2

/-- Witness for C5: a registry reached from `New` by one failing `Delete`
of the query token still has all slots populated and `Get` defined on an
unregistered token. -/
theorem reserved_slots_invariant_witness :
    (((Delete (New Unit) Mime_Query).2.mimeQuery.isSome = true ∧
      (Delete (New Unit) Mime_Query).2.mimeUri.isSome = true ∧
      (Delete (New Unit) Mime_Query).2.mimeWildcard.isSome = true) ∧
      (Get (Delete (New Unit) Mime_Query).2 "application/unknown").isSome = true) :=
  reserved_slots_invariant (Delete (New Unit) Mime_Query).2
    (Reachable.delete (New Unit) Mime_Query Reachable.new) "application/unknown"

/-- Codec registered under `application/json` in the Accept-resolution
counterexample registry. -/
def acceptJsonCodec : Marshaler Unit :=
  mkMarshaler Unit false false false "application/json"

/-- Codec registered under `text/plain` in the Accept-resolution
counterexample registry. -/
def acceptPlainCodec : Marshaler Unit :=
  mkMarshaler Unit false false false "text/plain"

/-- Counterexample registry for Accept resolution: two distinguishable
codecs registered under `application/json` and `text/plain`, default
reserved slots. -/
def acceptTwoReg : Encoding Unit :=
  { mimeMap := [(Mime_JSON, acceptJsonCodec), (Mime_Plain, acceptPlainCodec)]
  , mimeQuery := some (queryFormCodec Unit)
  , mimeUri := some (uriFormCodec Unit)
  , mimeWildcard := some (jsonStrictCodec Unit) }

/-- Claim C1 fails on the code: with the two raw Accept header values
`application/json` and `text/plain`, both with exact entries in the
general mapping, the first candidate across all header values is
`application/json`, yet `marshalerFromHeaderAccept` returns the
`text/plain` codec. The `break` in the Go source (encoding.go line 309)
terminates only the inner loop over one header value's candidates, so
the outer loop lets the last header value containing a match overwrite
earlier matches — contradicting the function's own documentation
("choose the first one that it can exactly match in the registry"). -/
theorem accept_multiheader_last_match_wins :
    mapLookup acceptTwoReg.mimeMap Mime_JSON = some acceptJsonCodec ∧
    marshalerFromHeaderAccept acceptTwoReg [Mime_JSON, Mime_Plain] = some acceptPlainCodec ∧
    marshalerFromHeaderAccept acceptTwoReg [Mime_JSON, Mime_Plain] ≠ some acceptJsonCodec := by
  refine ⟨rfl, rfl, fun h => ?_⟩
  have h2 : some "text/plain" = some "application/json" :=
    congrArg (Option.map (fun mm => Marshaler.contentType mm ())) h
  exact absurd h2 (by decide)

/-- Claim C3: Content-Type resolution iterates the raw header values in
order, strips `;`-delimited parameters, skips values that fail media
type parsing, and returns the token and codec of the first bare media
type with an exact entry in the general mapping, falling back to the
wildcard token and codec — it agrees with the spec-worded
`specInboundResolution` on every registry and header value list. The
remaining conjuncts instantiate the parameter-stripping behaviour and
the spec's order-sensitivity example (`application/unknown` before a
registered `application/json`). -/
theorem content_type_resolution_first_match {V : Type} (r : Encoding V) (values : List String) :
    marshalerFromHeaderContentType r values = specInboundResolution r values ∧
    goParseMediaType "application/json; charset=utf-8" = some Mime_JSON ∧
    marshalerFromHeaderContentType
      { mimeMap := [(Mime_JSON, jsonLenientCodec Unit)]
      , mimeQuery := none, mimeUri := none, mimeWildcard := none }
      ["application/unknown", "application/json"]
      = (Mime_JSON, some (jsonLenientCodec Unit)) := by
  refine ⟨?_, by decide, rfl⟩
  induction values with
  | nil => rfl
  | cons v rest ih =>
    cases hp : goParseMediaType v with
    | none =>
      simp only [marshalerFromHeaderContentType, specInboundResolution, List.findSome?, hp,
        Option.none_bind] at ih ⊢
      exact ih
    | some t =>
      cases hl : mapLookup r.mimeMap t with
      | none =>
        simp only [marshalerFromHeaderContentType, specInboundResolution, List.findSome?, hp,
          hl, Option.some_bind, Option.map_none'] at ih ⊢
        exact ih
      | some m =>
        simp [marshalerFromHeaderContentType, specInboundResolution, List.findSome?, hp, hl]

/-- Claim C9: Accept resolution does no parameter stripping: a candidate
carrying media-type parameters is looked up verbatim, so in a registry
where only the bare `application/json` is registered the candidate
`application/json; charset=utf-8` does not match and resolution falls
through to the wildcard codec. -/
theorem accept_no_parameter_stripping {V : Type} (r : Encoding V) (mj : Marshaler V)
    (hbare : mapLookup r.mimeMap Mime_JSON = some mj)
    (hfull : mapLookup r.mimeMap "application/json; charset=utf-8" = none) :
    parseAcceptHeader "application/json; charset=utf-8"
      = ["application/json; charset=utf-8"] ∧
    marshalerFromHeaderAccept r ["application/json; charset=utf-8"] = r.mimeWildcard := by
  have hp : parseAcceptHeader "application/json; charset=utf-8"
      = ["application/json; charset=utf-8"] := by decide
  refine ⟨hp, ?_⟩
  have h2 : acceptInnerLoop r.mimeMap none ["application/json; charset=utf-8"] = none := by
    simp [acceptInnerLoop, hfull]
  have h1 : acceptOuterLoop r.mimeMap none ["application/json; charset=utf-8"]
      = acceptInnerLoop r.mimeMap none (parseAcceptHeader "application/json; charset=utf-8") :=
    rfl
  show (match acceptOuterLoop r.mimeMap none ["application/json; charset=utf-8"] with
    | some m => some m
    | none => r.mimeWildcard) = r.mimeWildcard
  rw [h1, hp, h2]

/-- Witness for C9: a registry holding only the bare `application/json`
sends the parametered Accept candidate to the wildcard codec. -/
theorem accept_no_parameter_stripping_witness :
    mapLookup
      ({ mimeMap := [(Mime_JSON, jsonLenientCodec Unit)]
       , mimeQuery := some (queryFormCodec Unit)
       , mimeUri := some (uriFormCodec Unit)
       , mimeWildcard := some (jsonStrictCodec Unit) } : Encoding Unit).mimeMap
      Mime_JSON = some (jsonLenientCodec Unit) ∧
    marshalerFromHeaderAccept
      ({ mimeMap := [(Mime_JSON, jsonLenientCodec Unit)]
       , mimeQuery := some (queryFormCodec Unit)
       , mimeUri := some (uriFormCodec Unit)
       , mimeWildcard := some (jsonStrictCodec Unit) } : Encoding Unit)
      ["application/json; charset=utf-8"] = some (jsonStrictCodec Unit) := by
  have h := accept_no_parameter_stripping
    ({ mimeMap := [(Mime_JSON, jsonLenientCodec Unit)]
     , mimeQuery := some (queryFormCodec Unit)
     , mimeUri := some (uriFormCodec Unit)
     , mimeWildcard := some (jsonStrictCodec Unit) } : Encoding Unit)
    (jsonLenientCodec Unit) rfl rfl
  exact ⟨rfl, h.2⟩

/-- Claim C6: for a request whose method is the retrieval method `GET`,
`Bind` delegates entirely to query binding: it decodes the URL's query
parameters through the registry's query slot, and the outcome does not
depend on the Content-Type header values (nor on the body or the
multipart parser). -/
theorem bind_get_delegates_to_query {V : Type}
    (pmf : Nat → Request → Except String Vals) (r : Encoding V) (req : Request) (v : V)
    (q : Marshaler V) (cts : List String)
    (hm : req.method = http_MethodGet) (hq : r.mimeQuery = some q) :
    Bind pmf r req v = some (q.formDecode req.queryValues v) ∧
    Bind pmf r { req with contentTypeValues := cts } v
      = some (q.formDecode req.queryValues v) := by
  constructor <;> simp [Bind, BindQuery, hm, hq]

/-- Witness request for C6: a GET request carrying both a query string
and a Content-Type header. -/
def reqGetW : Request :=
  { method := "GET"
  , contentTypeValues := ["application/json"]
  , acceptValues := []
  , queryValues := [("id", ["foo"]), ("name", ["bar"])]
  , body := [] }

/-- Witness for C6: binding the GET request goes through the query slot
of the default registry, with or without its Content-Type header. -/
theorem bind_get_delegates_to_query_witness :
    reqGetW.method = http_MethodGet ∧
    (New Unit).mimeQuery = some (queryFormCodec Unit) ∧
    Bind (fun _ _ => Except.ok []) (New Unit) reqGetW ()
      = some ((queryFormCodec Unit).formDecode reqGetW.queryValues ()) ∧
    Bind (fun _ _ => Except.ok []) (New Unit) { reqGetW with contentTypeValues := ["text/plain"] } ()
      = some ((queryFormCodec Unit).formDecode reqGetW.queryValues ()) := by
  have h := bind_get_delegates_to_query (fun _ _ => Except.ok []) (New Unit) reqGetW ()
    (queryFormCodec Unit) ["text/plain"] rfl rfl
  exact ⟨rfl, rfl, h.1, h.2⟩

/-- Claim C7: for a non-GET request whose Content-Type resolution yields
the multipart-form token, `Bind` fails with the unsupported-marshaller
error when the resolved codec lacks the FormCodec capability; otherwise
it parses the body into an in-memory multipart field map bounded at
`defaultMemory` = 32MiB and hands that field map to the codec's
FormCodec decode entry point. -/
theorem bind_multipart_formcodec {V : Type}
    (pmf : Nat → Request → Except String Vals) (r : Encoding V) (req : Request) (v : V)
    (m : Marshaler V)
    (hm : req.method ≠ http_MethodGet)
    (hin : InboundForRequest r req = (Mime_MultipartPostForm, some m)) :
    (m.isFormCodec = false →
      Bind pmf r req v
        = some (Except.error ("encoding: not supported marshaller("
            ++ Mime_MultipartPostForm ++ ")"))) ∧
    (m.isFormCodec = true →
      Bind pmf r req v
        = some (match pmf defaultMemory req with
                | Except.error e => Except.error e
                | Except.ok fields => m.formCodecDecode fields v)) ∧
    defaultMemory = 33554432 := by
  refine ⟨fun hfc => ?_, fun hfc => ?_, by decide⟩
  · simp [Bind, hm, hin, hfc]
  · cases hp : pmf defaultMemory req <;> simp [Bind, hm, hin, hfc, hp]

/-- Witness request for C7: a POST request declaring
`multipart/form-data`. -/
def reqMultipartW : Request :=
  { method := "POST"
  , contentTypeValues := ["multipart/form-data"]
  , acceptValues := []
  , queryValues := []
  , body := [] }

/-- Witness for C7: in the default registry the multipart request
resolves to the multipart codec (which has the FormCodec capability),
and `Bind` feeds it the field map produced by the multipart parser. -/
theorem bind_multipart_formcodec_witness :
    reqMultipartW.method ≠ http_MethodGet ∧
    InboundForRequest (New Unit) reqMultipartW
      = (Mime_MultipartPostForm, some (multipartFormCodec Unit)) ∧
    Bind (fun _ _ => Except.ok [("id", ["foo"])]) (New Unit) reqMultipartW ()
      = some (Except.ok ()) := by
  have h := bind_multipart_formcodec (fun _ _ => Except.ok [("id", ["foo"])]) (New Unit)
    reqMultipartW () (multipartFormCodec Unit) (by decide) rfl
  exact ⟨by decide, rfl, h.2.1 rfl⟩

/-- Claim C8: `Render` with a nil value returns no error, writes nothing
and sets no header, whatever the registry; with a present value, a
marshal error from the resolved outbound codec is returned with the
writer untouched (no header set, the write function never invoked),
and on marshal success the Content-Type response header is set to the
codec's declared content type for that value on the writer that the
write function is then applied to. -/
theorem render_nil_and_marshal_order {V : Type}
    (writeTo : ResponseWriter → List Nat → ResponseWriter × Option String)
    (r : Encoding V) (req : Request) (w : ResponseWriter) (val : V) (m : Marshaler V)
    (hout : OutboundForRequest r req = some m) :
    Render writeTo r w req none = some (w, none) ∧
    Render writeTo r w req (some val)
      = some (match m.marshal val with
              | Except.error e => (w, some e)
              | Except.ok data =>
                writeTo { w with headers := headerSet w.headers "Content-Type" (m.contentType val) } data) := by
  constructor
  · rfl
  · cases hd : m.marshal val <;> simp [Render, hout, hd]

/-- Witness request for C8: no Accept header, so outbound resolution
falls back to the wildcard codec. -/
def reqRenderW : Request :=
  { method := "GET", contentTypeValues := [], acceptValues := [], queryValues := [], body := [] }

/-- Witness write function for C8: append the data, never fail. -/
def appendWrite (w : ResponseWriter) (d : List Nat) : ResponseWriter × Option String :=
  ({ w with body := w.body ++ d }, none)

/-- Witness for C8: rendering nil leaves the empty writer untouched with
no error; rendering a value through the default wildcard codec sets the
Content-Type header before the body is written. -/
theorem render_nil_and_marshal_order_witness :
    OutboundForRequest (New Unit) reqRenderW = some (jsonStrictCodec Unit) ∧
    Render appendWrite (New Unit) { headers := [], body := [] } reqRenderW none
      = some ({ headers := [], body := [] }, none) ∧
    Render appendWrite (New Unit) { headers := [], body := [] } reqRenderW (some ())
      = some ({ headers := [("Content-Type", Mime_JSON)], body := [] }, none) := by
  have h := render_nil_and_marshal_order appendWrite (New Unit) reqRenderW
    { headers := [], body := [] } () (jsonStrictCodec Unit) rfl
  exact ⟨rfl, h.1, h.2⟩

end Encoding
